import Mathlib

/-!
Verification development for the web backend of a software-rendering
surface library (`src/web.rs`).

The embedding models the state of `WebImpl` (pixel buffer, presented flag,
stored dimensions, and the canvas element's intrinsic dimensions), the
operations `resize`, `present_with_damage`, `present`, `age`, and the
helper `total_len`.  Host interactions (image-data construction and
`putImageData` paint calls) are recorded as explicit values so that
theorems can speak about how many conversions and paint calls occur.

Panics (the `unwrap_or_else(|| panic!(..))` in `total_len` and the
`NonZeroU32::new(..).unwrap()` in `present`) are modelled as the `error`
branch of an outer `Except String`, carrying the panic message.  Host
calls that the source unwraps but whose failure can only originate in the
host environment (`ImageData` construction, `putImageData`) are modelled
as always succeeding recorders, matching the source comments that these
errors are unreachable for the sizes the code passes.

The platform's addressable size (`usize`) is modelled by an explicit bit
width `bits` (`usize::MAX = 2^bits - 1`); on the web target this is 32.
-/

/-- Modelled from the spec: `Rect` is defined at the crate root (not in
`src/`): x, y, width, height, each an integer describing a sub-rectangle
of the buffer.  `BufferImpl::present` fills it from `i32` values, so the
fields are modelled as `Int`. -/
structure Rect where
  x : Int
  y : Int
  width : Int
  height : Int
  deriving DecidableEq, Repr

/-- Modelled from the spec: the error type lives in `src/error.rs` (not in
`src/`).  The spec names the recoverable error kinds; `SizeOutOfRange`
carries the offending dimensions (the source stores them as `NonZeroU32`,
modelled as the raw `Nat` values). -/
inductive SoftBufferError where
  | PlatformUnavailable
  | TargetNotFound
  | ContextAlreadyOwned
  | UnexpectedContextType
  | SizeOutOfRange (width height : Nat)
  deriving DecidableEq, Repr

/-- State of `WebImpl`: the pixel buffer (`Vec<u32>`, each element a value
below `2^32`), the `buffer_presented` flag, the stored `width`/`height`
(`u32`), and the canvas element's intrinsic dimensions (mutated by
`canvas.set_width`/`set_height` in `resize`). -/
structure WebImpl where
  buffer : List Nat
  buffer_presented : Bool
  width : Nat
  height : Nat
  canvas_width : Nat
  canvas_height : Nat
  deriving DecidableEq, Repr

/-- State produced by `WebImpl::new`: empty buffer, not presented, zero
dimensions.  The canvas element's pre-existing intrinsic dimensions are
host data, passed in as parameters. -/
def initState (cw ch : Nat) : WebImpl :=
  { buffer := [], buffer_presented := false, width := 0, height := 0,
    canvas_width := cw, canvas_height := ch }

/-- Panic message of `total_len` (the `panic!` format string with the
arguments interpolated). -/
def overflowMsg (width height : Nat) : String :=
  "Overflow when calculating total length of buffer: " ++ toString width
    ++ "x" ++ toString height

/-- Model of `u32::try_into::<usize>()`: succeeds exactly when the value
fits in `bits` bits. -/
def u32ToUsize (bits n : Nat) : Option Nat :=
  if n < 2 ^ bits then some n else none

/-- Model of `usize::checked_mul`: succeeds exactly when the product fits
in `bits` bits. -/
def checkedMul (bits a b : Nat) : Option Nat :=
  if a * b < 2 ^ bits then some (a * b) else none

/-- Model of `total_len`: convert `width` and `height` to `usize`, then
multiply with `checked_mul`; on failure the source panics with
`overflowMsg`. -/
def total_len (bits width height : Nat) : Except String Nat :=
  match u32ToUsize bits width with
  | none => Except.error (overflowMsg width height)
  | some w =>
    match u32ToUsize bits height with
    | none => Except.error (overflowMsg width height)
    | some h =>
      match checkedMul bits w h with
      | none => Except.error (overflowMsg width height)
      | some len => Except.ok len

/-- Model of `Vec::resize(len, value)`: truncate when shrinking, pad with
`value` when growing. -/
def vecResize (v : List Nat) (len : Nat) (value : Nat) : List Nat :=
  if len ≤ v.length then v.take len
  else v ++ List.replicate (len - v.length) value

/-- Model of `WebImpl::resize`.  The source takes `NonZeroU32` arguments
(so `width` and `height` are nonzero in any real call); the model takes
raw `Nat`s and theorems add positivity hypotheses where the claim needs
them.  When the dimensions change, the buffer is resized to
`total_len width height` (zero-filled), the canvas element's intrinsic
dimensions are updated, the new dimensions are stored, and
`buffer_presented` is cleared.  Otherwise nothing happens.  The Rust
function returns `Ok(())` on every non-panicking path. -/
def resize (bits : Nat) (s : WebImpl) (width height : Nat) :
    Except String WebImpl :=
  if width ≠ s.width ∨ height ≠ s.height then
    match total_len bits width height with
    | Except.error msg => Except.error msg
    | Except.ok len =>
      Except.ok { s with
        buffer_presented := false,
        buffer := vecResize s.buffer len 0,
        canvas_width := width,
        canvas_height := height,
        width := width,
        height := height }
  else
    Except.ok s

/-- Bytes emitted for one pixel by the `flat_map` in
`WebImpl::present_with_damage`:
`[(pixel >> 16) as u8, (pixel >> 8) as u8, pixel as u8, 255]`. -/
def pixelBytes (pixel : Nat) : List Nat :=
  [(pixel >>> 16) % 256, (pixel >>> 8) % 256, pixel % 256, 255]

/-- The bitmap built from the whole pixel buffer: the interleaved byte
sequence, four bytes per pixel. -/
def bitmap (buffer : List Nat) : List Nat :=
  buffer.flatMap pixelBytes

/-- Model of a host `ImageData` object: the byte data and the row width
(`sw`) passed to the constructor. -/
structure ImageData where
  data : List Nat
  sw : Nat
  deriving DecidableEq, Repr

/-- One recorded `putImageData(image, dx, dy, dirtyX, dirtyY, dirtyWidth,
dirtyHeight)` call issued by `present_with_damage`. -/
structure PaintCall where
  image : ImageData
  dx : Int
  dy : Int
  dirtyX : Int
  dirtyY : Int
  dirtyWidth : Int
  dirtyHeight : Int
  deriving DecidableEq, Repr

instance instDecEqExcept {ε α : Type} [DecidableEq ε] [DecidableEq α] :
    DecidableEq (Except ε α) := fun a b =>
  match a, b with
  | Except.ok x, Except.ok y =>
    if h : x = y then Decidable.isTrue (by rw [h])
    else Decidable.isFalse (by simp [h])
  | Except.ok _, Except.error _ => Decidable.isFalse (by simp)
  | Except.error _, Except.ok _ => Decidable.isFalse (by simp)
  | Except.error e, Except.error f =>
    if h : e = f then Decidable.isTrue (by rw [h])
    else Decidable.isFalse (by simp [h])

/-- Result of a present call: the successor state, the list of image-data
constructions performed, the list of paint calls issued (in order), and
the `Result<(), SoftBufferError>` the Rust function returns. -/
structure PresentResult where
  state : WebImpl
  conversions : List ImageData
  paints : List PaintCall
  ret : Except SoftBufferError Unit
  deriving DecidableEq, Repr

/-- Model of `WebImpl::present_with_damage`: convert the entire buffer to
bytes, build one `ImageData` at row width `self.width`, issue one
`putImageData` per damage rectangle passing `(x, y)` as the position and
`(x, y, width, height)` as the dirty rectangle, then set
`buffer_presented` and return `Ok(())`. -/
def WebImpl.present_with_damage (s : WebImpl) (damage : List Rect) :
    PresentResult :=
  let img : ImageData := { data := bitmap s.buffer, sw := s.width }
  { state := { s with buffer_presented := true },
    conversions := [img],
    paints := damage.map fun r =>
      { image := img, dx := r.x, dy := r.y, dirtyX := r.x, dirtyY := r.y,
        dirtyWidth := r.width, dirtyHeight := r.height },
    ret := Except.ok () }

/-- Model of `BufferImpl::age`: 1 when the buffer has been presented since
the last reallocation, otherwise 0. -/
def BufferImpl.age (s : WebImpl) : Nat :=
  if s.buffer_presented then 1 else 0

/-- Model of `BufferImpl::present`: try to convert `width` and `height` to
`i32` (success exactly when the value is below `2^31`); on failure return
`Err(SizeOutOfRange)` — after re-wrapping both dimensions as `NonZeroU32`,
whose `unwrap` panics on a zero dimension (outer `error`).  On success
delegate to `WebImpl::present_with_damage` with the single full-surface
rectangle `(0, 0, width, height)`. -/
def BufferImpl.present (s : WebImpl) : Except String PresentResult :=
  if s.width < 2 ^ 31 ∧ s.height < 2 ^ 31 then
    Except.ok (s.present_with_damage
      [Rect.mk 0 0 (s.width : Int) (s.height : Int)])
  else if s.width = 0 ∨ s.height = 0 then
    Except.error "NonZeroU32::new returned None"
  else
    Except.ok
      { state := s, conversions := [], paints := [],
        ret := Except.error (SoftBufferError.SizeOutOfRange s.width s.height) }

/-- Operations a caller can perform on a surface after binding: `resize`,
a pixel write through `pixels_mut` on a `buffer_mut` handle (slice writes
cannot change the length), `present`, and `present_with_damage`.
`buffer_mut` itself does not mutate the state. -/
inductive Op where
  | resize (width height : Nat)
  | write (i v : Nat)
  | present
  | presentDamage (damage : List Rect)
  deriving DecidableEq, Repr

/-- One step of the surface state machine.  The outer `Except String` is a
panic; the typed `Result` values returned to the caller do not affect the
state. -/
def step (bits : Nat) (s : WebImpl) : Op → Except String WebImpl
  | Op.resize w h => resize bits s w h
  | Op.write i v => Except.ok { s with buffer := s.buffer.set i v }
  | Op.present => (BufferImpl.present s).map PresentResult.state
  | Op.presentDamage damage =>
      Except.ok (s.present_with_damage damage).state

/-- Run a sequence of operations from a state, stopping at the first
panic. -/
def run (bits : Nat) (s : WebImpl) : List Op → Except String WebImpl
  | [] => Except.ok s
  | op :: rest =>
    match step bits s op with
    | Except.error msg => Except.error msg
    | Except.ok s2 => run bits s2 rest

/-- The dimensions passed to the most recent `resize` call in the
sequence, if any. -/
def lastResize : List Op → Option (Nat × Nat)
  | [] => none
  | op :: rest =>
    match lastResize rest with
    | some p => some p
    | none =>
      match op with
      | Op.resize w h => some (w, h)
      | _ => none

/-- The buffer-length invariant of the spec: `buffer.length == width *
height`. -/
def LenInv (s : WebImpl) : Prop :=
  s.buffer.length = s.width * s.height

/-! ### Helper lemmas about the byte conversion -/

theorem length_pixelBytes (p : Nat) : (pixelBytes p).length = 4 := rfl

theorem bitmap_nil : bitmap [] = [] := rfl

theorem bitmap_cons (p : Nat) (l : List Nat) :
    bitmap (p :: l) = pixelBytes p ++ bitmap l :=
  List.flatMap_cons ..

theorem length_bitmap (l : List Nat) : (bitmap l).length = 4 * l.length := by
  induction l with
  | nil => rfl
  | cons p l ih =>
    rw [bitmap_cons, List.length_append, length_pixelBytes, ih,
      List.length_cons]
    omega

theorem bitmap_drop (l : List Nat) (i : Nat) :
    (bitmap l).drop (4 * i) = bitmap (l.drop i) := by
  induction l generalizing i with
  | nil => simp [bitmap]
  | cons p l ih =>
    cases i with
    | zero => simp
    | succ j =>
      have h4 : 4 * (j + 1) = (pixelBytes p).length + 4 * j := by
        rw [length_pixelBytes]; omega
      rw [bitmap_cons, h4, List.drop_append, ih, List.drop_succ_cons]

theorem bitmap_take4 (l : List Nat) (i : Nat) (hi : i < l.length) :
    ((bitmap l).drop (4 * i)).take 4 = pixelBytes l[i] := by
  rw [bitmap_drop, List.drop_eq_getElem_cons hi, bitmap_cons]
  have h := @List.take_append Nat (pixelBytes l[i]) (bitmap (l.drop (i + 1))) 0
  rw [length_pixelBytes] at h
  simpa using h

/-- C1: `present_with_damage` converts the entire pixel buffer (whatever
the damage list is) into one interleaved byte sequence with four bytes per
pixel; pixel `i` contributes bits 16–23 as red, bits 8–15 as green, bits
0–7 as blue, and a constant alpha of 255; a pixel holding `0x00FF8040`
yields the quadruple `[0xFF, 0x80, 0x40, 255]` at its position. -/
theorem spec_c1 (s : WebImpl) (damage : List Rect) (i : Nat)
    (hi : i < s.buffer.length) :
    (s.present_with_damage damage).conversions
        = [{ data := bitmap s.buffer, sw := s.width }]
    ∧ (bitmap s.buffer).length = 4 * s.buffer.length
    ∧ ((bitmap s.buffer).drop (4 * i)).take 4
        = [s.buffer[i] / 2 ^ 16 % 2 ^ 8,
           s.buffer[i] / 2 ^ 8 % 2 ^ 8,
           s.buffer[i] % 2 ^ 8, 255]
    ∧ (s.buffer[i] = 0x00FF8040 →
        ((bitmap s.buffer).drop (4 * i)).take 4 = [0xFF, 0x80, 0x40, 255]) := by
  refine ⟨rfl, length_bitmap _, ?_, ?_⟩
  · rw [bitmap_take4 _ _ hi]
    simp [pixelBytes, Nat.shiftRight_eq_div_pow]
  · intro h
    rw [bitmap_take4 _ _ hi, h]
    decide

/-- Witness for C1: a concrete two-pixel buffer with `0x00FF8040` at
index 1. -/
theorem spec_c1_witness :
    ((bitmap [0, 0x00FF8040]).drop (4 * 1)).take 4 = [0xFF, 0x80, 0x40, 255] :=
  (spec_c1 (WebImpl.mk [0, 0x00FF8040] false 2 1 0 0) [] 1 (by decide)).2.2.2
    (by decide)

/-- C10: the surface-level `present_with_damage` never returns a typed
error — its `Result` is always `Ok` — and the only typed error the
handle-level `present` can surface is `SizeOutOfRange`. -/
theorem spec_c10 (s : WebImpl) (damage : List Rect) :
    (s.present_with_damage damage).ret = Except.ok ()
    ∧ (∀ r, BufferImpl.present s = Except.ok r →
        r.ret = Except.ok () ∨
          r.ret = Except.error
            (SoftBufferError.SizeOutOfRange s.width s.height)) := by
  refine ⟨rfl, ?_⟩
  intro r hr
  unfold BufferImpl.present at hr
  split at hr
  · injection hr with h2
    subst h2
    exact Or.inl rfl
  · split at hr
    · simp at hr
    · injection hr with h2
      subst h2
      exact Or.inr rfl

/-- Witness for C10 at the freshly bound state and a one-rectangle damage
list. -/
theorem spec_c10_witness :
    ((initState 0 0).present_with_damage []).ret = Except.ok ()
    ∧ (((initState 0 0).present_with_damage [Rect.mk 0 0 0 0]).ret
          = Except.ok ()
        ∨ ((initState 0 0).present_with_damage [Rect.mk 0 0 0 0]).ret
          = Except.error (SoftBufferError.SizeOutOfRange 0 0)) :=
  ⟨(spec_c10 (initState 0 0) []).1,
   (spec_c10 (initState 0 0) []).2 _ (by decide)⟩

/-- C9: one present call performs exactly one image-data conversion and
issues exactly one paint call per damage rectangle, in list order, each
passing that rectangle's origin and size as the dirty rectangle;
`present()` on a surface of size (4, 3) produces exactly one paint call
with rectangle (0, 0, 4, 3). -/
theorem spec_c9 (s : WebImpl) (damage : List Rect) :
    (s.present_with_damage damage).conversions.length = 1
    ∧ (s.present_with_damage damage).paints.length = damage.length
    ∧ (∀ i : Nat, ((s.present_with_damage damage).paints)[i]?
        = (damage[i]?).map fun r =>
            PaintCall.mk (ImageData.mk (bitmap s.buffer) s.width)
              r.x r.y r.x r.y r.width r.height)
    ∧ (s.width = 4 → s.height = 3 →
        (BufferImpl.present s).map PresentResult.paints
          = Except.ok [PaintCall.mk (ImageData.mk (bitmap s.buffer) 4)
              0 0 0 0 4 3]) := by
  refine ⟨rfl, ?_, ?_, ?_⟩
  · exact List.length_map ..
  · intro i
    exact List.getElem?_map ..
  · intro h4 h3
    have hlt : s.width < 2 ^ 31 ∧ s.height < 2 ^ 31 := by
      rw [h4, h3]; exact ⟨by norm_num, by norm_num⟩
    unfold BufferImpl.present
    rw [if_pos hlt]
    simp [WebImpl.present_with_damage, h4, h3, Except.map]

/-- Witness for C9: a 4×3 surface with a two-rectangle damage list. -/
theorem spec_c9_witness :
    ((WebImpl.mk [] false 4 3 0 0).present_with_damage
        [Rect.mk 0 0 1 1, Rect.mk 2 2 1 1]).paints.length = 2
    ∧ (BufferImpl.present (WebImpl.mk [] false 4 3 0 0)).map
        PresentResult.paints
      = Except.ok [PaintCall.mk (ImageData.mk (bitmap []) 4) 0 0 0 0 4 3] :=
  ⟨((spec_c9 (WebImpl.mk [] false 4 3 0 0)
      [Rect.mk 0 0 1 1, Rect.mk 2 2 1 1]).2.1).trans rfl,
   (spec_c9 (WebImpl.mk [] false 4 3 0 0) []).2.2.2 rfl rfl⟩

/-- C4: `present()` delegates to `present_with_damage` with the single
full-surface rectangle (0, 0, width, height), returns `SizeOutOfRange`
exactly when a dimension does not fit in a 32-bit signed integer, and in
that failure case performs no conversion, no paint, and leaves the state
unchanged.  The hypotheses record that a zero dimension can only coexist
with a small other dimension (true of every reachable state, where the
dimensions are either both zero or both from `NonZeroU32`). -/
theorem spec_c4 (s : WebImpl)
    (hz1 : s.width = 0 → s.height < 2 ^ 31)
    (hz2 : s.height = 0 → s.width < 2 ^ 31) :
    (s.width < 2 ^ 31 → s.height < 2 ^ 31 →
      BufferImpl.present s = Except.ok (s.present_with_damage
        [Rect.mk 0 0 (s.width : Int) (s.height : Int)]))
    ∧ ((2 ^ 31 ≤ s.width ∨ 2 ^ 31 ≤ s.height) →
      BufferImpl.present s = Except.ok (PresentResult.mk s [] []
        (Except.error (SoftBufferError.SizeOutOfRange s.width s.height)))) := by
  constructor
  · intro h1 h2
    unfold BufferImpl.present
    rw [if_pos ⟨h1, h2⟩]
  · intro hge
    have hlt : ¬(s.width < 2 ^ 31 ∧ s.height < 2 ^ 31) := by
      rcases hge with hg | hg
      · exact fun hc => absurd hg (not_le.mpr hc.1)
      · exact fun hc => absurd hg (not_le.mpr hc.2)
    have hz : ¬(s.width = 0 ∨ s.height = 0) := by
      rcases hge with hg | hg
      · rintro (h0 | h0)
        · rw [h0] at hg; exact absurd hg (by norm_num)
        · exact absurd hg (not_le.mpr (hz2 h0))
      · rintro (h0 | h0)
        · exact absurd hg (not_le.mpr (hz1 h0))
        · rw [h0] at hg; exact absurd hg (by norm_num)
    unfold BufferImpl.present
    rw [if_neg hlt, if_neg hz]

/-- Witness for C4: a surface whose width is exactly `2^31`. -/
theorem spec_c4_witness :
    BufferImpl.present (WebImpl.mk [] false (2 ^ 31) 1 0 0)
      = Except.ok (PresentResult.mk (WebImpl.mk [] false (2 ^ 31) 1 0 0) [] []
          (Except.error (SoftBufferError.SizeOutOfRange (2 ^ 31) 1))) :=
  (spec_c4 (WebImpl.mk [] false (2 ^ 31) 1 0 0) (by decide) (by decide)).2
    (Or.inl (by decide))

/-- Dimensions stored after a successful `resize` are the requested ones
(whether or not the call was a no-op). -/
theorem resize_ok_dims (bits : Nat) (s s2 : WebImpl) (w h : Nat)
    (hok : resize bits s w h = Except.ok s2) :
    s2.width = w ∧ s2.height = h := by
  unfold resize at hok
  by_cases hc : w ≠ s.width ∨ h ≠ s.height
  · rw [if_pos hc] at hok
    cases htl : total_len bits w h with
    | error msg => rw [htl] at hok; simp at hok
    | ok len =>
      rw [htl] at hok
      injection hok with h2
      subst h2
      exact ⟨rfl, rfl⟩
  · rw [if_neg hc] at hok
    injection hok with h2
    subst h2
    push_neg at hc
    exact ⟨hc.1.symm, hc.2.symm⟩

/-- C6: resizing to the current dimensions is a no-op returning the state
unchanged (buffer contents, presented flag, dimensions); consequently a
second resize to the same dimensions after any successful resize leaves
all state as after the first call. -/
theorem spec_c6 (bits : Nat) (s s2 : WebImpl) (w h : Nat) :
    resize bits s s.width s.height = Except.ok s
    ∧ (resize bits s w h = Except.ok s2 →
        resize bits s2 w h = Except.ok s2) := by
  constructor
  · unfold resize
    rw [if_neg (by simp)]
  · intro hok
    obtain ⟨hw2, hh2⟩ := resize_ok_dims bits s s2 w h hok
    unfold resize
    rw [if_neg (by push_neg; exact ⟨hw2.symm, hh2.symm⟩)]

/-- Witness for C6: a same-size resize on a fresh state and on the result
of a first resize. -/
theorem spec_c6_witness :
    resize 32 (initState 0 0) 0 0 = Except.ok (initState 0 0)
    ∧ resize 32 (WebImpl.mk [0, 0] false 2 1 2 1) 2 1
        = Except.ok (WebImpl.mk [0, 0] false 2 1 2 1) :=
  ⟨(spec_c6 32 (initState 0 0) (initState 0 0) 0 0).1,
   (spec_c6 32 (initState 0 0) (WebImpl.mk [0, 0] false 2 1 2 1) 2 1).2
     (by decide)⟩

/-- Characterization of `total_len` when both dimensions fit in the
addressable size: it yields the product, or the overflow panic when the
product does not fit. -/
theorem total_len_spec (bits w h : Nat) (hwb : w < 2 ^ bits)
    (hhb : h < 2 ^ bits) :
    total_len bits w h
      = if w * h < 2 ^ bits then Except.ok (w * h)
        else Except.error (overflowMsg w h) := by
  unfold total_len u32ToUsize checkedMul
  simp only [if_pos hwb, if_pos hhb]
  by_cases hm : w * h < 2 ^ bits
  · simp only [if_pos hm]
  · simp only [if_neg hm]

/-- A successful `total_len` yields exactly the product of the
dimensions. -/
theorem total_len_ok (bits w h len : Nat)
    (htl : total_len bits w h = Except.ok len) : len = w * h := by
  unfold total_len u32ToUsize checkedMul at htl
  by_cases h1 : w < 2 ^ bits
  · by_cases h2 : h < 2 ^ bits
    · by_cases h3 : w * h < 2 ^ bits
      · simp [h1, h2, h3] at htl
        omega
      · simp [h1, h2, h3] at htl
    · simp [h1, h2] at htl
  · simp [h1] at htl

/-- Characterization of a successful dimension-changing `resize`: the
state is fully determined. -/
theorem resize_ok (bits : Nat) (s s2 : WebImpl) (w h : Nat)
    (hne : w ≠ s.width ∨ h ≠ s.height)
    (hok : resize bits s w h = Except.ok s2) :
    s2 = WebImpl.mk (vecResize s.buffer (w * h) 0) false w h w h := by
  unfold resize at hok
  rw [if_pos hne] at hok
  cases htl : total_len bits w h with
  | error msg => rw [htl] at hok; simp at hok
  | ok len =>
    have hlen : len = w * h := total_len_ok bits w h len htl
    rw [htl, hlen] at hok
    injection hok with h2
    exact h2.symm

theorem length_vecResize (v : List Nat) (len value : Nat) :
    (vecResize v len value).length = len := by
  unfold vecResize
  split
  next hle => simp; omega
  next hle => simp; omega

theorem getElem?_vecResize_keep (v : List Nat) (len value i : Nat)
    (hi : i < v.length) (hil : i < len) :
    (vecResize v len value)[i]? = v[i]? := by
  unfold vecResize
  split
  next hle => rw [List.getElem?_take, if_pos hil]
  next hle => rw [List.getElem?_append, if_pos hi]

theorem getElem?_vecResize_fill (v : List Nat) (len value i : Nat)
    (hge : v.length ≤ i) (hil : i < len) :
    (vecResize v len value)[i]? = some value := by
  unfold vecResize
  split
  next hle => omega
  next hle =>
    rw [List.getElem?_append_right hge, List.getElem?_replicate,
      if_pos (by omega)]

/-- C8: `resize` to dimensions whose product does not fit in the
platform's addressable size fails fatally with the overflow panic message
naming the offending width and height; when the product is representable
the length computation succeeds without overflow, yielding exactly
`width * height`.  `bits` is the addressable-size width (at least 32 on
any platform hosting `u32`); the hypothesis on the current state holds of
every reachable state, whose buffer length was itself computed by
`total_len`. -/
theorem spec_c8 (bits : Nat) (s : WebImpl) (w h : Nat)
    (hbits : 32 ≤ bits) (hw : w < 2 ^ 32) (hh : h < 2 ^ 32)
    (hcur : s.width * s.height < 2 ^ bits) :
    (2 ^ bits ≤ w * h → resize bits s w h
        = Except.error (overflowMsg w h))
    ∧ (w * h < 2 ^ bits → total_len bits w h = Except.ok (w * h)) := by
  have hwb : w < 2 ^ bits :=
    lt_of_lt_of_le hw (Nat.pow_le_pow_right (by norm_num) hbits)
  have hhb : h < 2 ^ bits :=
    lt_of_lt_of_le hh (Nat.pow_le_pow_right (by norm_num) hbits)
  constructor
  · intro hover
    have hne : w ≠ s.width ∨ h ≠ s.height := by
      by_contra hcon
      push_neg at hcon
      rw [hcon.1, hcon.2] at hover
      exact absurd hover (not_le.mpr hcur)
    unfold resize
    rw [if_pos hne, total_len_spec bits w h hwb hhb,
      if_neg (not_lt.mpr hover)]
  · intro hlt
    rw [total_len_spec bits w h hwb hhb, if_pos hlt]

/-- Witness for C8: 65536 × 65536 overflows a 32-bit `usize`; 3 × 2 does
not. -/
theorem spec_c8_witness :
    resize 32 (initState 0 0) 65536 65536
        = Except.error (overflowMsg 65536 65536)
    ∧ total_len 32 3 2 = Except.ok 6 :=
  ⟨(spec_c8 32 (initState 0 0) 65536 65536 (by norm_num) (by norm_num)
      (by norm_num) (by decide)).1 (by norm_num),
   (spec_c8 32 (initState 0 0) 3 2 (by norm_num) (by norm_num)
      (by norm_num) (by decide)).2 (by norm_num)⟩

/-- C5: a successful resize to strictly positive dimensions differing
from the current ones gives a buffer of exactly `width * height` elements
that keeps the old elements and zero-fills the newly added ones, updates
the canvas element's intrinsic dimensions and the stored dimensions, and
clears the presented flag. -/
theorem spec_c5 (bits : Nat) (s s2 : WebImpl) (w h : Nat)
    (hw : 0 < w) (hh : 0 < h)
    (hne : w ≠ s.width ∨ h ≠ s.height)
    (hok : resize bits s w h = Except.ok s2) :
    s2.buffer.length = w * h
    ∧ (∀ i, i < s.buffer.length → i < w * h → s2.buffer[i]? = s.buffer[i]?)
    ∧ (∀ i, s.buffer.length ≤ i → i < w * h → s2.buffer[i]? = some 0)
    ∧ s2.canvas_width = w ∧ s2.canvas_height = h
    ∧ s2.width = w ∧ s2.height = h
    ∧ s2.buffer_presented = false := by
  have h2 := resize_ok bits s s2 w h hne hok
  subst h2
  exact ⟨length_vecResize .., fun i h1 h2 => getElem?_vecResize_keep _ _ _ _ h1 h2,
    fun i h1 h2 => getElem?_vecResize_fill _ _ _ _ h1 h2,
    rfl, rfl, rfl, rfl, rfl⟩

/-- Witness for C5: resizing a freshly bound surface to 2 × 2. -/
theorem spec_c5_witness :
    (WebImpl.mk [0, 0, 0, 0] false 2 2 2 2).buffer.length = 2 * 2
    ∧ (WebImpl.mk [0, 0, 0, 0] false 2 2 2 2).buffer[3]? = some 0 := by
  have hmain := spec_c5 32 (initState 5 5) (WebImpl.mk [0, 0, 0, 0] false 2 2 2 2)
    2 2 (by decide) (by decide) (Or.inl (by decide)) (by decide)
  exact ⟨hmain.1, hmain.2.2.1 3 (by decide) (by decide)⟩

/-- Counterexample to C7 as stated: after `resize(1,1)` and a present,
the state `⟨[0], presented, 1, 1⟩` is reached; a further successful
`resize(1,1)` — strictly positive dimensions — leaves `age` at 1, not 0,
because a same-size resize is a no-op that does not clear the presented
flag. -/
theorem spec_c7_counterexample :
    run 32 (initState 1 1) [Op.resize 1 1, Op.present]
        = Except.ok (WebImpl.mk [0] true 1 1 1 1)
    ∧ resize 32 (WebImpl.mk [0] true 1 1 1 1) 1 1
        = Except.ok (WebImpl.mk [0] true 1 1 1 1)
    ∧ BufferImpl.age (WebImpl.mk [0] true 1 1 1 1) ≠ 0 := by decide

/-- C7 amended: after any successful `resize(w, h)` from a state whose
buffer length satisfies the invariant, the buffer length equals `w * h`;
`age()` on a fresh handle is 0 whenever the dimensions differ from the
current ones, while a resize to the current dimensions is a no-op that
keeps the previous age. -/
theorem spec_c7_amended (bits : Nat) (s s2 : WebImpl) (w h : Nat)
    (hw : 0 < w) (hh : 0 < h)
    (hinv : s.buffer.length = s.width * s.height)
    (hok : resize bits s w h = Except.ok s2) :
    s2.buffer.length = w * h
    ∧ ((w ≠ s.width ∨ h ≠ s.height) → BufferImpl.age s2 = 0)
    ∧ (w = s.width → h = s.height → BufferImpl.age s2 = BufferImpl.age s) := by
  by_cases hne : w ≠ s.width ∨ h ≠ s.height
  · have h2 := resize_ok bits s s2 w h hne hok
    subst h2
    refine ⟨length_vecResize .., fun _ => rfl, ?_⟩
    intro hw2 hh2
    cases hne with
    | inl h1 => exact absurd hw2 h1
    | inr h1 => exact absurd hh2 h1
  · have hid : resize bits s w h = Except.ok s := by
      unfold resize
      rw [if_neg hne]
    rw [hid] at hok
    injection hok with h2
    subst h2
    push_neg at hne
    refine ⟨?_, fun hc => absurd hc (by push_neg; exact hne), fun _ _ => rfl⟩
    rw [hinv, hne.1, hne.2]

/-- Witness for the amended C7: a first resize of a fresh surface to
1 × 1. -/
theorem spec_c7_amended_witness :
    (WebImpl.mk [0] false 1 1 1 1).buffer.length = 1 * 1
    ∧ BufferImpl.age (WebImpl.mk [0] false 1 1 1 1) = 0 := by
  have hmain := spec_c7_amended 32 (initState 0 0)
    (WebImpl.mk [0] false 1 1 1 1) 1 1 (by decide) (by decide) (by decide)
    (by decide)
  exact ⟨hmain.1, hmain.2.1 (Or.inl (by decide))⟩

/-! ### State-machine lemmas -/

theorem step_write (bits : Nat) (s s2 : WebImpl) (i v : Nat)
    (hok : step bits s (Op.write i v) = Except.ok s2) :
    s2 = { s with buffer := s.buffer.set i v } := by
  unfold step at hok
  injection hok with h2
  exact h2.symm

theorem step_presentDamage (bits : Nat) (s s2 : WebImpl) (d : List Rect)
    (hok : step bits s (Op.presentDamage d) = Except.ok s2) :
    s2 = { s with buffer_presented := true } := by
  unfold step WebImpl.present_with_damage at hok
  injection hok with h2
  exact h2.symm

theorem step_present (bits : Nat) (s s2 : WebImpl)
    (hok : step bits s Op.present = Except.ok s2) :
    s2 = { s with buffer_presented := true } ∨ s2 = s := by
  have hok2 : Except.map PresentResult.state (BufferImpl.present s)
      = Except.ok s2 := hok
  unfold BufferImpl.present at hok2
  split at hok2
  · left
    simp [Except.map, WebImpl.present_with_damage] at hok2
    exact hok2.symm
  · split at hok2
    · simp [Except.map] at hok2
    · right
      simp [Except.map] at hok2
      exact hok2.symm

theorem step_lenInv (bits : Nat) (s s2 : WebImpl) (op : Op)
    (hinv : LenInv s) (hok : step bits s op = Except.ok s2) : LenInv s2 := by
  cases op with
  | resize w h =>
    by_cases hne : w ≠ s.width ∨ h ≠ s.height
    · have h2 := resize_ok bits s s2 w h hne hok
      subst h2
      show (vecResize s.buffer (w * h) 0).length = w * h
      exact length_vecResize ..
    · have hid : resize bits s w h = Except.ok s := by
        unfold resize
        rw [if_neg hne]
      have hok2 : resize bits s w h = Except.ok s2 := hok
      rw [hid] at hok2
      injection hok2 with h2
      subst h2
      exact hinv
  | write i v =>
    have h2 := step_write bits s s2 i v hok
    subst h2
    show (s.buffer.set i v).length = s.width * s.height
    rw [List.length_set]
    exact hinv
  | present =>
    rcases step_present bits s s2 hok with h2 | h2 <;> subst h2 <;> exact hinv
  | presentDamage d =>
    have h2 := step_presentDamage bits s s2 d hok
    subst h2
    exact hinv

theorem step_dims_preserved (bits : Nat) (s s2 : WebImpl) (op : Op)
    (hnr : ∀ w h, op ≠ Op.resize w h)
    (hok : step bits s op = Except.ok s2) :
    s2.width = s.width ∧ s2.height = s.height := by
  cases op with
  | resize w h => exact absurd rfl (hnr w h)
  | write i v =>
    have h2 := step_write bits s s2 i v hok
    subst h2
    exact ⟨rfl, rfl⟩
  | present =>
    rcases step_present bits s s2 hok with h2 | h2 <;> subst h2 <;>
      exact ⟨rfl, rfl⟩
  | presentDamage d =>
    have h2 := step_presentDamage bits s s2 d hok
    subst h2
    exact ⟨rfl, rfl⟩

theorem run_lenInv (bits : Nat) (ops : List Op) :
    ∀ s s2 : WebImpl, LenInv s → run bits s ops = Except.ok s2 →
      LenInv s2 := by
  induction ops with
  | nil =>
    intro s s2 hinv hr
    unfold run at hr
    injection hr with h2
    subst h2
    exact hinv
  | cons op rest ih =>
    intro s s2 hinv hr
    unfold run at hr
    cases hst : step bits s op with
    | error m => rw [hst] at hr; simp at hr
    | ok s1 =>
      rw [hst] at hr
      exact ih s1 s2 (step_lenInv bits s s1 op hinv hst) hr

theorem lastResize_nil : lastResize [] = none := rfl

theorem lastResize_cons (op : Op) (rest : List Op) :
    lastResize (op :: rest)
      = match lastResize rest with
        | some p => some p
        | none =>
          match op with
          | Op.resize w h => some (w, h)
          | _ => none := rfl

theorem run_lastResize (bits : Nat) (ops : List Op) :
    ∀ s s2 : WebImpl, run bits s ops = Except.ok s2 →
      (∀ w h, lastResize ops = some (w, h) →
        s2.width = w ∧ s2.height = h)
      ∧ (lastResize ops = none →
        s2.width = s.width ∧ s2.height = s.height) := by
  induction ops with
  | nil =>
    intro s s2 hr
    unfold run at hr
    injection hr with h2
    subst h2
    exact ⟨fun w h hl => Option.noConfusion (lastResize_nil.symm.trans hl),
      fun _ => ⟨rfl, rfl⟩⟩
  | cons op rest ih =>
    intro s s2 hr
    unfold run at hr
    cases hst : step bits s op with
    | error m => rw [hst] at hr; simp at hr
    | ok s1 =>
      rw [hst] at hr
      have ihs := ih s1 s2 hr
      constructor
      · intro w h hl
        rw [lastResize_cons] at hl
        cases hlr : lastResize rest with
        | some p =>
          rw [hlr] at hl
          injection hl with h2
          exact ihs.1 w h (hlr.trans (congrArg some h2))
        | none =>
          rw [hlr] at hl
          have hpres := ihs.2 hlr
          cases op with
          | resize w1 h1 =>
            injection hl with h2
            injection h2 with hw hh
            have hdims := resize_ok_dims bits s s1 w1 h1 hst
            exact ⟨hpres.1.trans (hdims.1.trans hw),
              hpres.2.trans (hdims.2.trans hh)⟩
          | write i v => exact Option.noConfusion hl
          | present => exact Option.noConfusion hl
          | presentDamage d => exact Option.noConfusion hl
      · intro hl
        rw [lastResize_cons] at hl
        cases hlr : lastResize rest with
        | some p => rw [hlr] at hl; exact Option.noConfusion hl
        | none =>
          rw [hlr] at hl
          have hpres := ihs.2 hlr
          cases op with
          | resize w1 h1 => exact Option.noConfusion hl
          | write i v =>
            have hd := step_dims_preserved bits s s1 _
              (fun w h hc => Op.noConfusion hc) hst
            exact ⟨hpres.1.trans hd.1, hpres.2.trans hd.2⟩
          | present =>
            have hd := step_dims_preserved bits s s1 _
              (fun w h hc => Op.noConfusion hc) hst
            exact ⟨hpres.1.trans hd.1, hpres.2.trans hd.2⟩
          | presentDamage d =>
            have hd := step_dims_preserved bits s s1 _
              (fun w h hc => Op.noConfusion hc) hst
            exact ⟨hpres.1.trans hd.1, hpres.2.trans hd.2⟩

/-- C2: along every operation sequence from a freshly bound surface the
invariant `buffer.length = width * height` holds, and the stored
dimensions equal the ones passed to the most recent `resize` call. -/
theorem spec_c2 (bits cw ch : Nat) (ops : List Op) (s2 : WebImpl)
    (w h : Nat)
    (hrun : run bits (initState cw ch) ops = Except.ok s2)
    (hlast : lastResize ops = some (w, h)) :
    s2.buffer.length = s2.width * s2.height
    ∧ s2.width = w ∧ s2.height = h := by
  have h1 := run_lenInv bits ops (initState cw ch) s2 rfl hrun
  have h2 := (run_lastResize bits ops (initState cw ch) s2 hrun).1 w h hlast
  exact ⟨h1, h2⟩

/-- Witness for C2: resize to 2 × 3, write a pixel, present. -/
theorem spec_c2_witness :
    (WebImpl.mk [5, 0, 0, 0, 0, 0] true 2 3 2 3).buffer.length
        = (WebImpl.mk [5, 0, 0, 0, 0, 0] true 2 3 2 3).width
          * (WebImpl.mk [5, 0, 0, 0, 0, 0] true 2 3 2 3).height
    ∧ (WebImpl.mk [5, 0, 0, 0, 0, 0] true 2 3 2 3).width = 2
    ∧ (WebImpl.mk [5, 0, 0, 0, 0, 0] true 2 3 2 3).height = 3 :=
  spec_c2 32 0 0 [Op.resize 2 3, Op.write 0 5, Op.present]
    (WebImpl.mk [5, 0, 0, 0, 0, 0] true 2 3 2 3) 2 3 (by decide) (by decide)

/-- C3: `present_with_damage` sets the presented flag for every damage
list (including the empty one), so `age` on a fresh handle is 1; the same
holds after a successful `present()`; and the age stays 1 under every
further successful operation except a resize to different dimensions,
which resets it to 0. -/
theorem spec_c3 (s : WebImpl) (damage : List Rect) (bits : Nat) (op : Op)
    (s2 : WebImpl)
    (hstep : step bits (s.present_with_damage damage).state op
      = Except.ok s2) :
    (s.present_with_damage damage).state.buffer_presented = true
    ∧ BufferImpl.age (s.present_with_damage damage).state = 1
    ∧ (∀ r, BufferImpl.present s = Except.ok r → r.ret = Except.ok () →
        BufferImpl.age r.state = 1)
    ∧ (match op with
       | Op.resize w h =>
          if w = (s.present_with_damage damage).state.width
              ∧ h = (s.present_with_damage damage).state.height
          then BufferImpl.age s2 = 1
          else BufferImpl.age s2 = 0
       | _ => BufferImpl.age s2 = 1) := by
  refine ⟨rfl, rfl, ?_, ?_⟩
  · intro r hr hret
    unfold BufferImpl.present at hr
    split at hr
    · injection hr with h2
      subst h2
      rfl
    · split at hr
      · simp at hr
      · injection hr with h2
        subst h2
        simp at hret
  · cases op with
    | resize w h =>
      show if w = (s.present_with_damage damage).state.width
          ∧ h = (s.present_with_damage damage).state.height
        then BufferImpl.age s2 = 1 else BufferImpl.age s2 = 0
      by_cases hc : w = (s.present_with_damage damage).state.width
          ∧ h = (s.present_with_damage damage).state.height
      · rw [if_pos hc]
        have hid : resize bits (s.present_with_damage damage).state w h
            = Except.ok (s.present_with_damage damage).state := by
          unfold resize
          rw [if_neg (by push_neg; exact hc)]
        have hstep2 : resize bits (s.present_with_damage damage).state w h
            = Except.ok s2 := hstep
        rw [hid] at hstep2
        injection hstep2 with h2
        subst h2
        rfl
      · rw [if_neg hc]
        have h2 := resize_ok bits (s.present_with_damage damage).state s2
          w h (not_and_or.mp hc) hstep
        subst h2
        rfl
    | write i v =>
      show BufferImpl.age s2 = 1
      have h2 := step_write bits _ s2 i v hstep
      subst h2
      rfl
    | present =>
      show BufferImpl.age s2 = 1
      rcases step_present bits _ s2 hstep with h2 | h2 <;> subst h2 <;> rfl
    | presentDamage d =>
      show BufferImpl.age s2 = 1
      have h2 := step_presentDamage bits _ s2 d hstep
      subst h2
      rfl

/-- Witness for C3: present with an empty damage list, then resize to the
different dimensions 2 × 2. -/
theorem spec_c3_witness :
    ((WebImpl.mk [0] false 1 1 1 1).present_with_damage
        []).state.buffer_presented = true
    ∧ BufferImpl.age (WebImpl.mk [0, 0, 0, 0] false 2 2 2 2) = 0 := by
  have hmain := spec_c3 (WebImpl.mk [0] false 1 1 1 1) [] 32 (Op.resize 2 2)
    (WebImpl.mk [0, 0, 0, 0] false 2 2 2 2) (by decide)
  exact ⟨hmain.1, hmain.2.2.2⟩
